import Mathlib

set_option maxRecDepth 100000

/-!
Verification of the 3DM-GX3-25 IMU serial driver (`src/imu_3dm_gx3.cc`).

The driver is a single C++ translation unit.  This file gives a shallow
embedding of its pure computational core:

* `validate_checksum` — 16-bit additive checksum over a byte buffer
  (source lines 63–75);
* `extract_float` / `extract_int` — in-place reassembly of four bytes into a
  32-bit value through byte-wise memory writes (lines 39–61); the result of
  that reassembly depends on the byte order of the host, which is made an
  explicit parameter here;
* the per-frame decode loop of `main` (lines 262–306): field extraction at
  fixed offsets, unit conversion, timestamp computation and message
  construction;
* the startup handshake of `main` (lines 150–245) with its single re-init
  attempt, modelled over an explicit script of device replies;
* the rotation-matrix → quaternion conversion, which the source delegates to
  the external Eigen library and is therefore modelled from the spec.

Bytes are modelled as `Nat` values; every read of a byte from a buffer is
reduced `% 256`, which is what storage in a C `unsigned char` guarantees.
`float`/`double` arithmetic of the conversion stage is modelled exactly over
`ℚ` (and over `ℝ` for the quaternion conversion): the modelled identities are
the exact-arithmetic shadows of the floating-point computations.
-/

namespace Imu3dmGx3

/-- A byte buffer; each entry stands for an `unsigned char`. -/
abbrev Bytes := List Nat

/-- Reading `data[i]`: out of the model's list we read with default `0`, and
reduce `% 256` because the C buffer stores `unsigned char`. -/
def byteAt (data : Bytes) (i : Nat) : Nat := data.getD i 0 % 256

/-- Embedding of `validate_checksum(const unsigned char *data, unsigned short
length)` (source lines 63–75).  `chksum` is an `unsigned short` accumulator,
so every addition wraps `% 65536`; `rchksum` is `data[length-2] << 8` plus
`data[length-1]`, again in `unsigned short` arithmetic. -/
def validate_checksum (data : Bytes) (length : Nat) : Bool :=
  let chksum :=
    (List.range (length - 2)).foldl (fun a i => (a + byteAt data i) % 65536) 0
  let rchksum :=
    (byteAt data (length - 2) * 256 % 65536 + byteAt data (length - 1)) % 65536
  chksum == rchksum

/-- The mod-65536 folding accumulator computes the sum of the mapped range,
reduced mod 65536. -/
lemma foldl_mod_eq_sum_mod (data : Bytes) (m : Nat) (a : Nat) :
    (List.range m).foldl (fun a i => (a + byteAt data i) % 65536) (a % 65536)
      = (a + ((List.range m).map (fun i => byteAt data i)).sum) % 65536 := by
  induction m generalizing a with
  | zero => simp
  | succ m ih =>
    rw [List.range_succ, List.foldl_append, List.map_append]
    have h1 : (List.range m).foldl (fun a i => (a + byteAt data i) % 65536)
        (a % 65536) = (a + ((List.range m).map (fun i => byteAt data i)).sum) % 65536 :=
      ih a
    rw [h1]
    simp only [List.foldl_cons, List.foldl_nil, List.map_cons, List.map_nil,
      List.sum_cons, List.sum_nil, List.sum_append]
    omega

/-- Summing `byteAt` over an initial range of valid indices is summing the
prefix of the buffer, when all bytes are genuine byte values. -/
lemma sum_range_byteAt (b : Bytes) (hb : ∀ x ∈ b, x < 256) (m : Nat)
    (hm : m ≤ b.length) :
    ((List.range m).map (fun i => byteAt b i)).sum = (b.take m).sum := by
  induction m with
  | zero => simp
  | succ m ih =>
    have hm' : m ≤ b.length := Nat.le_of_succ_le hm
    have hmlt : m < b.length := hm
    rw [List.range_succ, List.map_append, List.sum_append,
      List.take_succ, List.sum_append, ih hm']
    have hlt : b[m] < 256 := hb _ (List.getElem_mem hmlt)
    have hgd : b.getD m 0 = b[m] := List.getD_eq_getElem b 0 hmlt
    simp [byteAt, hgd, Nat.mod_eq_of_lt hlt, List.getElem?_eq_getElem hmlt]

/-- A valid index's `getD` value is a genuine byte of the buffer, hence below
256 when all bytes are. -/
lemma getD_lt_of_mem (b : Bytes) (hb : ∀ x ∈ b, x < 256) (i : Nat)
    (hi : i < b.length) : b.getD i 0 < 256 := by
  rw [List.getD_eq_getElem b 0 hi]
  exact hb _ (List.getElem_mem hi)

/-- **C1.** For every byte buffer `b` of length `n ≥ 2`,
`validate_checksum b n` returns `true` iff the last two bytes of `b` are the
big-endian encoding of the 16-bit (mod-65536) sum of the bytes `b[0..n-3]`
(all bytes except the last two). -/
theorem validate_checksum_iff_bigendian_sum (b : Bytes) (h2 : 2 ≤ b.length)
    (hb : ∀ x ∈ b, x < 256) :
    validate_checksum b b.length = true ↔
      (b.getD (b.length - 2) 0 = ((b.take (b.length - 2)).sum % 65536) / 256 ∧
       b.getD (b.length - 1) 0 = ((b.take (b.length - 2)).sum % 65536) % 256) := by
  set n := b.length with hn
  have hsum : ((List.range (n - 2)).map (fun i => byteAt b i)).sum
      = (b.take (n - 2)).sum := sum_range_byteAt b hb (n - 2) (by omega)
  have hfold : (List.range (n - 2)).foldl (fun a i => (a + byteAt b i) % 65536) 0
      = (b.take (n - 2)).sum % 65536 := by
    have := foldl_mod_eq_sum_mod b (n - 2) 0
    simpa [hsum] using this
  have hb2 : b.getD (n - 2) 0 < 256 := getD_lt_of_mem b hb _ (by omega)
  have hb1 : b.getD (n - 1) 0 < 256 := getD_lt_of_mem b hb _ (by omega)
  have hbyte2 : byteAt b (n - 2) = b.getD (n - 2) 0 := Nat.mod_eq_of_lt hb2
  have hbyte1 : byteAt b (n - 1) = b.getD (n - 1) 0 := Nat.mod_eq_of_lt hb1
  unfold validate_checksum
  rw [hfold, hbyte2, hbyte1]
  have hS : (b.take (n - 2)).sum % 65536 < 65536 := Nat.mod_lt _ (by norm_num)
  constructor
  · intro h
    have h' : (b.take (n - 2)).sum % 65536
        = (b.getD (n - 2) 0 * 256 % 65536 + b.getD (n - 1) 0) % 65536 := by
      simpa using h
    omega
  · intro ⟨ha, hb'⟩
    have : (b.take (n - 2)).sum % 65536
        = (b.getD (n - 2) 0 * 256 % 65536 + b.getD (n - 1) 0) % 65536 := by
      omega
    simpa using this

/-- Witness for C1 at the concrete buffer `[1, 2, 0, 3]` (sum of the first two
bytes is `3`, encoded big-endian as `0, 3`). -/
theorem validate_checksum_iff_bigendian_sum_witness :
    validate_checksum [1, 2, 0, 3] ([1, 2, 0, 3] : Bytes).length = true ↔
      (([1, 2, 0, 3] : Bytes).getD (([1, 2, 0, 3] : Bytes).length - 2) 0
          = ((([1, 2, 0, 3] : Bytes).take (([1, 2, 0, 3] : Bytes).length - 2)).sum % 65536) / 256 ∧
       ([1, 2, 0, 3] : Bytes).getD (([1, 2, 0, 3] : Bytes).length - 1) 0
          = ((([1, 2, 0, 3] : Bytes).take (([1, 2, 0, 3] : Bytes).length - 2)).sum % 65536) % 256) := by
  have h := validate_checksum_iff_bigendian_sum [1, 2, 0, 3] (by decide)
    (by decide)
  simpa using h

/-! ## Big-endian 32-bit extraction (source lines 39–61)

`extract_float` and `extract_int` write the four input bytes into the memory
of a local 32-bit variable: input byte 0 goes to memory offset 3, byte 1 to
offset 2, byte 2 to offset 1 and byte 3 to offset 0.  Which memory offset is
the most significant byte of the resulting 32-bit value depends on the byte
order of the host, so the embedding takes the host byte order as an explicit
parameter. -/

/-- Host byte order: which memory offset of a 32-bit variable holds the most
significant byte. -/
inductive ByteOrder where
  | little
  | big
deriving DecidableEq

/-- The shared byte-reassembly of `extract_float`/`extract_int`: the memory of
the local `tmp` variable after the four writes is `mem[j] = addr[3 - j]`
(lines 43–46 resp. 55–58); the 32-bit value of that memory depends on the
host byte order (`little`: offset 0 is least significant; `big`: offset 0 is
most significant). -/
def extract_word (host : ByteOrder) (data : Bytes) (k : Nat) : Nat :=
  let mem : Nat → Nat := fun j => byteAt data (k + (3 - j))
  match host with
  | .little => mem 0 + mem 1 * 256 + mem 2 * 65536 + mem 3 * 16777216
  | .big => mem 3 + mem 2 * 256 + mem 1 * 65536 + mem 0 * 16777216

/-- Embedding of `extract_float` (lines 39–49) at the bit level: the IEEE-754
bit pattern of the returned `float` is the reassembled 32-bit word. -/
def extract_float (host : ByteOrder) (data : Bytes) (k : Nat) : Nat :=
  extract_word host data k

/-- Reinterpret a 32-bit word as a two's-complement signed value. -/
def toInt32 (w : Nat) : Int :=
  if w < 2147483648 then (w : Int) else (w : Int) - 4294967296

/-- Embedding of `extract_int` (lines 51–61): the reassembled 32-bit word
read back as a (signed, two's-complement) C `int`. -/
def extract_int (host : ByteOrder) (data : Bytes) (k : Nat) : Int :=
  toInt32 (extract_word host data k)

/-- Reference big-endian interpretation of four bytes: byte `b0` is the most
significant byte of the 32-bit word. -/
def be32 (b0 b1 b2 b3 : Nat) : Nat :=
  b0 * 16777216 + b1 * 65536 + b2 * 256 + b3

/-- The big-endian value of the four buffer bytes starting at offset `k`. -/
def be32At (data : Bytes) (k : Nat) : Nat :=
  be32 (byteAt data k) (byteAt data (k + 1)) (byteAt data (k + 2))
    (byteAt data (k + 3))

/-- Big-endian encoding of a 32-bit word into four bytes. -/
def encodeBE32 (w : Nat) : Bytes :=
  [w / 16777216 % 256, w / 65536 % 256, w / 256 % 256, w % 256]

/-- Two's-complement 32-bit representation of a signed value. -/
def ofInt32 (z : Int) : Nat :=
  (z % 4294967296).toNat

/-- On a little-endian host the reassembly is exactly the big-endian reading
of the four bytes at offset `k`. -/
lemma extract_word_little_eq_be32At (data : Bytes) (k : Nat) :
    extract_word ByteOrder.little data k = be32At data k := by
  simp only [extract_word, be32At, be32, byteAt]
  ring_nf

/-- **C2, counterexample.**  The claim says `extract_int` interprets byte 0
as the most significant byte *independently of host byte order*.  It does
not: on the four bytes `[0, 0, 0, 1]` the code yields `1` on a little-endian
host but `16777216` on a big-endian host, so only the little-endian host
gives the big-endian reading (`be32 0 0 0 1 = 1`). -/
theorem extract_int_host_dependent :
    extract_int ByteOrder.big [0, 0, 0, 1] 0
        ≠ extract_int ByteOrder.little [0, 0, 0, 1] 0 ∧
      extract_int ByteOrder.big [0, 0, 0, 1] 0 ≠ (be32 0 0 0 1 : Int) := by
  decide

/-- **C2, amended.**  On a *little-endian* host (the platform this driver
targets), `extract_word`/`extract_float`/`extract_int` interpret input byte 0
as the most significant byte of the 32-bit representation, and the big-endian
round trips hold: any 32-bit word (hence any float bit pattern) encoded
big-endian decodes to itself, and any signed 32-bit value encoded through its
two's-complement representation decodes to itself exactly. -/
theorem extract_little_endian_roundtrip (data : Bytes) (k : Nat) (w : Nat)
    (hw : w < 4294967296) (z : Int) (hz1 : -2147483648 ≤ z)
    (hz2 : z < 2147483648) :
    extract_word ByteOrder.little data k = be32At data k ∧
      extract_float ByteOrder.little data k = be32At data k ∧
      extract_word ByteOrder.little (encodeBE32 w) 0 = w ∧
      extract_float ByteOrder.little (encodeBE32 w) 0 = w ∧
      extract_int ByteOrder.little (encodeBE32 (ofInt32 z)) 0 = z := by
  refine ⟨?_, ?_, ?_, ?_, ?_⟩
  · exact extract_word_little_eq_be32At data k
  · exact extract_word_little_eq_be32At data k
  · simp [extract_word, encodeBE32, byteAt]
    omega
  · simp [extract_float, extract_word, encodeBE32, byteAt]
    omega
  · simp [extract_int, extract_word, encodeBE32, byteAt, toInt32, ofInt32]
    split
    · omega
    · omega

/-- Witness for the amended C2 at the word `0x12345678` and the signed value
`-2`. -/
theorem extract_little_endian_roundtrip_witness :
    extract_word ByteOrder.little [18, 52, 86, 120] 0
        = be32At [18, 52, 86, 120] 0 ∧
      extract_float ByteOrder.little [18, 52, 86, 120] 0
        = be32At [18, 52, 86, 120] 0 ∧
      extract_word ByteOrder.little (encodeBE32 305419896) 0 = 305419896 ∧
      extract_float ByteOrder.little (encodeBE32 305419896) 0 = 305419896 ∧
      extract_int ByteOrder.little (encodeBE32 (ofInt32 (-2))) 0 = -2 :=
  extract_little_endian_roundtrip [18, 52, 86, 120] 0 305419896 (by decide)
    (-2) (by decide) (by decide)

/-! ## The continuous-frame decoder (source lines 262–290)

Each iteration of the streaming loop extracts, from the 79-byte frame
starting at byte offset `k = 1`, three acceleration floats, three
angular-rate floats, three magnetic-field floats, nine rotation-matrix
floats and one signed 32-bit timer count, `k` advancing by 4 after each
field.  The floats are kept as 32-bit bit patterns here. -/

/-- The raw fields of one decoded continuous frame (the local arrays
`accel`, `ang_vel`, `mag`, `M` and the timer integer of lines 263–276),
floats as bit patterns. -/
structure RawFrame where
  accel : List Nat
  ang_vel : List Nat
  mag : List Nat
  M : List Nat
  timer : Int
deriving DecidableEq

/-- One extraction loop `for (i = 0; i < n; i++, k += 4) out[i] =
extract_float(&data[k])`: returns the extracted values and the final `k`. -/
def read_floats (host : ByteOrder) (data : Bytes) : Nat → Nat → List Nat × Nat
  | k, 0 => ([], k)
  | k, n + 1 =>
    let rest := read_floats host data (k + 4) n
    (extract_float host data k :: rest.1, rest.2)

/-- Embedding of the decode sequence of lines 262–276: starting at `k = 1`,
three accelerations, three angular rates, three magnetic-field components,
nine matrix entries, then the timer via `extract_int`. -/
def decode_frame (host : ByteOrder) (data : Bytes) : RawFrame :=
  let a := read_floats host data 1 3
  let g := read_floats host data a.2 3
  let m := read_floats host data g.2 3
  let mm := read_floats host data m.2 9
  ⟨a.1, g.1, m.1, mm.1, extract_int host data mm.2⟩

/-- Embedding of lines 287–290: the matrix `R` handed to the quaternion
conversion satisfies `R(i,j) = M[j*3+i]` — the flattened storage is read
column-major, i.e. transposed. -/
def frameR (f : RawFrame) (i j : Fin 3) : Nat :=
  f.M.getD (j.val * 3 + i.val) 0

/-- **C3.**  On the little-endian target host, the decoder reads consecutive
4-byte big-endian fields starting at byte offset 1: acceleration `i` at
offset `1 + 4i`, angular rate `i` at `13 + 4i`, magnetic field `i` at
`25 + 4i`, rotation-matrix entry `m` at `37 + 4m`, and the signed 32-bit
timer count at offset 73; and the matrix used for quaternion conversion
places flattened element `j*3+i` at logical position (row `i`, col `j`). -/
theorem continuous_frame_layout (data : Bytes) :
    (∀ i : Fin 3, (decode_frame ByteOrder.little data).accel.getD i 0
        = be32At data (1 + 4 * i)) ∧
      (∀ i : Fin 3, (decode_frame ByteOrder.little data).ang_vel.getD i 0
        = be32At data (13 + 4 * i)) ∧
      (∀ i : Fin 3, (decode_frame ByteOrder.little data).mag.getD i 0
        = be32At data (25 + 4 * i)) ∧
      (∀ m : Fin 9, (decode_frame ByteOrder.little data).M.getD m 0
        = be32At data (37 + 4 * m)) ∧
      (decode_frame ByteOrder.little data).timer = toInt32 (be32At data 73) ∧
      (∀ i j : Fin 3, frameR (decode_frame ByteOrder.little data) i j
        = (decode_frame ByteOrder.little data).M.getD (j.val * 3 + i.val) 0) := by
  refine ⟨?_, ?_, ?_, ?_, ?_, ?_⟩
  · intro i
    fin_cases i <;>
      simp [decode_frame, read_floats, extract_float,
        extract_word_little_eq_be32At]
  · intro i
    fin_cases i <;>
      simp [decode_frame, read_floats, extract_float,
        extract_word_little_eq_be32At]
  · intro i
    fin_cases i <;>
      simp [decode_frame, read_floats, extract_float,
        extract_word_little_eq_be32At]
  · intro m
    fin_cases m <;>
      simp [decode_frame, read_floats, extract_float,
        extract_word_little_eq_be32At]
  · simp [decode_frame, read_floats, extract_int,
      extract_word_little_eq_be32At]
  · intro i j
    rfl

/-! ## The streaming conversion (source lines 253–308)

The loop body converts the decoded raw fields into the published messages:
`linear_acceleration = accel * GRAVITY_CONSTANT`, `angular_velocity` and
`magnetic_field` copied unscaled, `stamp = t0 + T - delay` with
`T = timer / 62500.0`, `orientation_covariance[0] = -1`.  Floating-point
arithmetic is modelled exactly over `ℚ`; a 32-bit pattern is mapped to the
rational value of the IEEE-754 single it denotes by `float32_val`. -/

/-- The rational value denoted by an IEEE-754 single-precision bit pattern
(sign bit 31, biased exponent bits 23–30, mantissa bits 0–22).  Exponent 255
encodes infinities/NaNs, which have no rational value; the definition simply
extends the normal-number formula there, and no claim depends on that case. -/
def float32_val (w : Nat) : ℚ :=
  let s := w / 2147483648 % 2
  let e := w / 8388608 % 256
  let m := w % 8388608
  if e = 0 then ((-1 : ℚ) ^ s * m) * (2 : ℚ) ^ (-149 : ℤ)
  else ((-1 : ℚ) ^ s * (8388608 + m)) * (2 : ℚ) ^ ((e : ℤ) - 150)

/-- `#define GRAVITY_CONSTANT 9.807` (line 20), as an exact rational. -/
def GRAVITY_CONSTANT : ℚ := 9807 / 1000

/-- A three-component vector of exact values. -/
structure Vec3 where
  x : ℚ
  y : ℚ
  z : ℚ
deriving DecidableEq, Inhabited

/-- The fields of the published `sensor_msgs::Imu` message that the driver
sets (lines 278–296).  `orientationR` is the matrix handed to the quaternion
conversion (lines 287–290); the quaternion itself is produced by the external
Eigen library and is treated separately. -/
structure ImuMsg where
  stamp : ℚ
  angular_velocity : Vec3
  linear_acceleration : Vec3
  orientationR : Fin 3 → Fin 3 → ℚ
  orientation_covariance0 : ℚ
deriving Inhabited

/-- The fields of the published `sensor_msgs::MagneticField` message that the
driver sets (lines 300–304). -/
structure MagMsg where
  stamp : ℚ
  magnetic_field : Vec3
deriving DecidableEq, Inhabited

/-- One iteration body of the streaming loop (lines 256–306): validate the
79-byte frame; on failure produce nothing (`continue`); on success decode and
build the two messages. -/
def process_frame (host : ByteOrder) (t0 delay : ℚ) (data : Bytes) :
    Option (ImuMsg × MagMsg) :=
  if validate_checksum data 79 then
    let f := decode_frame host data
    let T : ℚ := (f.timer : ℚ) / 62500
    some
      ({ stamp := t0 + T - delay
         angular_velocity := ⟨float32_val (f.ang_vel.getD 0 0),
           float32_val (f.ang_vel.getD 1 0), float32_val (f.ang_vel.getD 2 0)⟩
         linear_acceleration :=
           ⟨float32_val (f.accel.getD 0 0) * GRAVITY_CONSTANT,
            float32_val (f.accel.getD 1 0) * GRAVITY_CONSTANT,
            float32_val (f.accel.getD 2 0) * GRAVITY_CONSTANT⟩
         orientationR := fun i j => float32_val (frameR f i j)
         orientation_covariance0 := -1 },
       { stamp := t0 + T - delay
         magnetic_field := ⟨float32_val (f.mag.getD 0 0),
           float32_val (f.mag.getD 1 0), float32_val (f.mag.getD 2 0)⟩ })
  else none

/-- The state carried across streaming iterations: the epoch `t0` and the
configured `delay` (set before the loop, never written inside it) and the
messages handed to the two publishers so far. -/
structure LoopState where
  t0 : ℚ
  delay : ℚ
  imu_out : List ImuMsg
  mag_out : List MagMsg

/-- One full streaming iteration: a failed checksum leaves the state exactly
as it was (`continue`, line 259); a decoded frame appends one message to each
publisher stream. -/
def stream_step (host : ByteOrder) (s : LoopState) (data : Bytes) : LoopState :=
  match process_frame host s.t0 s.delay data with
  | none => s
  | some (imu, mag) =>
    { s with imu_out := s.imu_out ++ [imu], mag_out := s.mag_out ++ [mag] }

/-- The streaming loop over the sequence of frames read until shutdown. -/
def stream_run (host : ByteOrder) (s : LoopState) (frames : List Bytes) :
    LoopState :=
  frames.foldl (stream_step host) s

/-- **C4.**  For every frame that passes checksum validation, the published
linear acceleration is each raw decoded acceleration component times
`GRAVITY_CONSTANT = 9.807`, the published timestamp is
`t0 + timer/62500 - delay`, and the `Imu` and `MagneticField` messages of
the iteration carry that same timestamp. -/
theorem streaming_conversion (host : ByteOrder) (t0 delay : ℚ) (data : Bytes)
    (hv : validate_checksum data 79 = true) :
    (process_frame host t0 delay data).map
        (fun p => (p.1.linear_acceleration, p.1.stamp, p.2.stamp))
      = some
        (⟨float32_val ((decode_frame host data).accel.getD 0 0) * (9807 / 1000),
          float32_val ((decode_frame host data).accel.getD 1 0) * (9807 / 1000),
          float32_val ((decode_frame host data).accel.getD 2 0) * (9807 / 1000)⟩,
         t0 + ((decode_frame host data).timer : ℚ) / 62500 - delay,
         t0 + ((decode_frame host data).timer : ℚ) / 62500 - delay) := by
  simp [process_frame, hv, GRAVITY_CONSTANT]

/-- A concrete 79-byte frame: type marker `0xCC`, acceleration `(0, 0, 1.0f)`
(in g), zero angular rate, magnetic field and rotation matrix, timer count
`62500` (one second), and correct trailing checksum. -/
def frameEx : Bytes :=
  [204, 0, 0, 0, 0, 0, 0, 0, 0, 63, 128, 0, 0] ++ List.replicate 60 0
    ++ [0, 0, 244, 36, 2, 163]

/-- Witness for C4: the concrete frame `frameEx` with `t0 = 10`, `delay = 3`
yields `linear_acceleration = (0, 0, 9.807)` and both timestamps
`10 + 1 - 3 = 8`. -/
theorem streaming_conversion_witness :
    (process_frame ByteOrder.little 10 3 frameEx).map
        (fun p => (p.1.linear_acceleration, p.1.stamp, p.2.stamp))
      = some (⟨0, 0, 9807 / 1000⟩, 8, 8) := by
  have h := streaming_conversion ByteOrder.little 10 3 frameEx (by decide)
  rw [h]
  have hf : decode_frame ByteOrder.little frameEx
      = ⟨[0, 0, 1065353216], [0, 0, 0], [0, 0, 0],
         [0, 0, 0, 0, 0, 0, 0, 0, 0], 62500⟩ := by decide
  rw [hf]
  norm_num [float32_val]

/-- **C9.**  For every frame that passes checksum validation, the published
angular velocity and magnetic field are exactly the raw decoded values — no
scaling or conversion is applied to them. -/
theorem no_scaling_on_gyro_and_mag (host : ByteOrder) (t0 delay : ℚ)
    (data : Bytes) (hv : validate_checksum data 79 = true) :
    (process_frame host t0 delay data).map
        (fun p => (p.1.angular_velocity, p.2.magnetic_field))
      = some
        (⟨float32_val ((decode_frame host data).ang_vel.getD 0 0),
          float32_val ((decode_frame host data).ang_vel.getD 1 0),
          float32_val ((decode_frame host data).ang_vel.getD 2 0)⟩,
         ⟨float32_val ((decode_frame host data).mag.getD 0 0),
          float32_val ((decode_frame host data).mag.getD 1 0),
          float32_val ((decode_frame host data).mag.getD 2 0)⟩) := by
  simp [process_frame, hv]

/-- Witness for C9 at the concrete frame `frameEx` (all gyro and magnetometer
fields decode to zero and are published unchanged). -/
theorem no_scaling_on_gyro_and_mag_witness :
    (process_frame ByteOrder.little 10 3 frameEx).map
        (fun p => (p.1.angular_velocity, p.2.magnetic_field))
      = some (⟨0, 0, 0⟩, ⟨0, 0, 0⟩) := by
  have h := no_scaling_on_gyro_and_mag ByteOrder.little 10 3 frameEx (by decide)
  rw [h]
  have hf : decode_frame ByteOrder.little frameEx
      = ⟨[0, 0, 1065353216], [0, 0, 0], [0, 0, 0],
         [0, 0, 0, 0, 0, 0, 0, 0, 0], 62500⟩ := by decide
  rw [hf]
  norm_num [float32_val]

/-- **C5.**  A frame that fails checksum validation is discarded: the
iteration produces no message, leaves the whole loop state (including `t0`
and `delay`) untouched, and the loop goes on to the next read instead of
terminating. -/
theorem checksum_failure_drops_frame (host : ByteOrder) (s : LoopState)
    (data : Bytes) (hv : validate_checksum data 79 = false) :
    process_frame host s.t0 s.delay data = none ∧
      stream_step host s data = s ∧
      ∀ rest : List Bytes,
        stream_run host s (data :: rest) = stream_run host s rest := by
  have hpf : process_frame host s.t0 s.delay data = none := by
    simp [process_frame, hv]
  have hstep : stream_step host s data = s := by
    simp [stream_step, hpf]
  exact ⟨hpf, hstep, fun rest => by simp [stream_run, hstep]⟩

/-- Witness for C5 at the all-ones 79-byte frame (checksum fails: the bytes
sum to 77 but the trailing two bytes read 257). -/
theorem checksum_failure_drops_frame_witness :
    process_frame ByteOrder.little (1 : ℚ) (2 : ℚ) (List.replicate 79 1) = none ∧
      stream_step ByteOrder.little ⟨1, 2, [], []⟩ (List.replicate 79 1)
        = (⟨1, 2, [], []⟩ : LoopState) ∧
      stream_run ByteOrder.little ⟨1, 2, [], []⟩
          (List.replicate 79 1 :: [frameEx])
        = stream_run ByteOrder.little ⟨1, 2, [], []⟩ [frameEx] := by
  have h := checksum_failure_drops_frame ByteOrder.little ⟨1, 2, [], []⟩
    (List.replicate 79 1) (by decide)
  exact ⟨h.1, h.2.1, h.2.2 [frameEx]⟩

/-- A message appended by a successful iteration always carries
`orientation_covariance[0] = -1` (line 296). -/
lemma process_frame_covariance (host : ByteOrder) (t0 delay : ℚ)
    (data : Bytes) (imu : ImuMsg) (mag : MagMsg)
    (h : process_frame host t0 delay data = some (imu, mag)) :
    imu.orientation_covariance0 = -1 := by
  unfold process_frame at h
  split at h
  · simp only [Option.some.injEq, Prod.mk.injEq] at h
    rw [← h.1]
  · exact absurd h (by simp)

/-- Messages present after a step were already present or were just built by
`process_frame`. -/
lemma mem_imu_out_stream_step (host : ByteOrder) (s : LoopState)
    (data : Bytes) (imu : ImuMsg)
    (h : imu ∈ (stream_step host s data).imu_out) :
    imu ∈ s.imu_out ∨ imu.orientation_covariance0 = -1 := by
  unfold stream_step at h
  cases hpf : process_frame host s.t0 s.delay data with
  | none => rw [hpf] at h; exact Or.inl h
  | some p =>
    rw [hpf] at h
    rcases p with ⟨i, g⟩
    simp only [List.mem_append, List.mem_singleton] at h
    rcases h with h | h
    · exact Or.inl h
    · exact Or.inr (h ▸ process_frame_covariance host s.t0 s.delay data i g hpf)

/-- Invariant of the streaming loop: if every message already in the output
stream is covariance-flagged, that stays true across any number of
iterations. -/
lemma stream_run_covariance_invariant (host : ByteOrder)
    (frames : List Bytes) :
    ∀ s : LoopState, (∀ m ∈ s.imu_out, m.orientation_covariance0 = (-1 : ℚ)) →
      ∀ m ∈ (stream_run host s frames).imu_out,
        m.orientation_covariance0 = (-1 : ℚ) := by
  induction frames with
  | nil => intro s hs m hm; exact hs m hm
  | cons d rest ih =>
    intro s hs m hm
    refine ih (stream_step host s d) ?_ m hm
    intro m' hm'
    rcases mem_imu_out_stream_step host s d m' hm' with hin | hflag
    · exact hs m' hin
    · exact hflag

/-- **C8.**  Every `Imu` message handed to the publisher during the streaming
loop (started with empty output streams) flags its orientation as having no
known covariance: `orientation_covariance[0] = -1`. -/
theorem imu_orientation_covariance_flagged (host : ByteOrder)
    (t0 delay : ℚ) (frames : List Bytes) (imu : ImuMsg)
    (h : imu ∈ (stream_run host ⟨t0, delay, [], []⟩ frames).imu_out) :
    imu.orientation_covariance0 = -1 :=
  stream_run_covariance_invariant host frames ⟨t0, delay, [], []⟩
    (by intro m hm; exact absurd hm (by simp)) imu h

/-- Witness for C8: after streaming the single all-zero frame (whose checksum
is valid), the one emitted message has `orientation_covariance[0] = -1`. -/
theorem imu_orientation_covariance_flagged_witness :
    ((stream_run ByteOrder.little ⟨0, 0, [], []⟩
        [List.replicate 79 0]).imu_out.head!).orientation_covariance0 = -1 := by
  apply imu_orientation_covariance_flagged ByteOrder.little 0 0
    [List.replicate 79 0]
  apply List.head!_mem_self
  have hv : validate_checksum (List.replicate 79 0) 79 = true := by decide
  cases hpf : process_frame ByteOrder.little 0 0 (List.replicate 79 0) with
  | none =>
    unfold process_frame at hpf
    rw [hv] at hpf
    simp at hpf
  | some p =>
    simp only [stream_run, List.foldl_cons, List.foldl_nil, stream_step, hpf]
    simp

/-! ## The startup handshake (source lines 144–245)

`main` is straight-line code: stop streaming, query the mode (with one
re-init attempt on checksum failure), ensure active mode, set the continuous
preset, set continuous mode, reset the timer, then stream.  The embedding is
parametrized by the script of replies the device would deliver to successive
blocking reads, consumed in order; transport writes always succeed (I/O
errors are external to the claims).  Every call to `validate_checksum` is
logged as a `(buffer, length)` pair, for the call-site safety claim. -/

/-- How a modelled driver run ends. -/
inductive Outcome where
  /-- A blocking read had no scripted reply: the process would hang. -/
  | blocked
  /-- `return -1` during the handshake. -/
  | startupFailure
  /-- The handshake succeeded and streaming ran until shutdown. -/
  | completed
deriving DecidableEq

/-- Observable result of a driver run: how it ended, how many re-init
attempts were made, all messages handed to the publishers, and every
`validate_checksum` call made (buffer, length). -/
structure DriverResult where
  outcome : Outcome
  reinits : Nat
  imu_out : List ImuMsg
  mag_out : List MagMsg
  ck_calls : List (Bytes × Nat)

/-- Lines 247–308: the streaming loop; each 79-byte frame read is checksum
checked (line 257) and, when valid, decoded and published. -/
def driver_streaming (host : ByteOrder) (t0 delay : ℚ) (frames : List Bytes)
    (reinits : Nat) (calls : List (Bytes × Nat)) : DriverResult :=
  let final := stream_run host ⟨t0, delay, [], []⟩ frames
  ⟨.completed, reinits, final.imu_out, final.mag_out,
    calls ++ frames.map (fun f => (f, 79))⟩

/-- Lines 238–245: send the set-timer command and read its 7-byte reply,
which is *not* checksum validated. -/
def driver_timer (host : ByteOrder) (t0 delay : ℚ)
    (replies frames : List Bytes) (reinits : Nat)
    (calls : List (Bytes × Nat)) : DriverResult :=
  match replies with
  | [] => ⟨.blocked, reinits, [], [], calls⟩
  | _rt :: _ => driver_streaming host t0 delay frames reinits calls

/-- Lines 226–236: set continuous output mode, validate the 4-byte reply;
failure is fatal (`return -1`). -/
def driver_continuous (host : ByteOrder) (t0 delay : ℚ)
    (replies frames : List Bytes) (reinits : Nat)
    (calls : List (Bytes × Nat)) : DriverResult :=
  match replies with
  | [] => ⟨.blocked, reinits, [], [], calls⟩
  | r :: rest =>
    if validate_checksum r 4 then
      driver_timer host t0 delay rest frames reinits (calls ++ [(r, 4)])
    else ⟨.startupFailure, reinits, [], [], calls ++ [(r, 4)]⟩

/-- Lines 212–224: set the continuous preset, validate the 4-byte reply;
failure is fatal. -/
def driver_preset (host : ByteOrder) (t0 delay : ℚ)
    (replies frames : List Bytes) (reinits : Nat)
    (calls : List (Bytes × Nat)) : DriverResult :=
  match replies with
  | [] => ⟨.blocked, reinits, [], [], calls⟩
  | r :: rest =>
    if validate_checksum r 4 then
      driver_continuous host t0 delay rest frames reinits (calls ++ [(r, 4)])
    else ⟨.startupFailure, reinits, [], [], calls ++ [(r, 4)]⟩

/-- Lines 197–210: if the reported mode (`reply[2]`) is not `0x01`, send the
set-active command and validate its 4-byte reply; failure is fatal.  If the
mode is already active this is a no-op. -/
def driver_active (host : ByteOrder) (t0 delay : ℚ) (modeReply : Bytes)
    (replies frames : List Bytes) (reinits : Nat)
    (calls : List (Bytes × Nat)) : DriverResult :=
  if byteAt modeReply 2 ≠ 1 then
    match replies with
    | [] => ⟨.blocked, reinits, [], [], calls⟩
    | r :: rest =>
      if validate_checksum r 4 then
        driver_preset host t0 delay rest frames reinits (calls ++ [(r, 4)])
      else ⟨.startupFailure, reinits, [], [], calls ++ [(r, 4)]⟩
  else driver_preset host t0 delay replies frames reinits calls

/-- Lines 149–195 and onward: the full handshake.  The first mode query's
4-byte reply is validated; on failure the port is closed, reopened, and the
query re-sent exactly once (lines 161–195); a second failure is fatal
(`return -1`). -/
def driver (host : ByteOrder) (t0 delay : ℚ)
    (replies frames : List Bytes) : DriverResult :=
  match replies with
  | [] => ⟨.blocked, 0, [], [], []⟩
  | r1 :: rest1 =>
    if validate_checksum r1 4 then
      driver_active host t0 delay r1 rest1 frames 0 [(r1, 4)]
    else
      match rest1 with
      | [] => ⟨.blocked, 1, [], [], [(r1, 4)]⟩
      | r2 :: rest2 =>
        if validate_checksum r2 4 then
          driver_active host t0 delay r2 rest2 frames 1 [(r1, 4), (r2, 4)]
        else ⟨.startupFailure, 1, [], [], [(r1, 4), (r2, 4)]⟩

/-- **C6.**  If the first mode-query reply fails checksum validation, the
query is re-sent exactly once; if the second reply also fails, the driver
terminates with a startup failure (`return -1`) having emitted no sample and
validated no further reply: exactly one re-init, no further retry. -/
theorem mode_query_single_retry (host : ByteOrder) (t0 delay : ℚ)
    (r1 r2 : Bytes) (rest frames : List Bytes)
    (h1 : validate_checksum r1 4 = false)
    (h2 : validate_checksum r2 4 = false) :
    driver host t0 delay (r1 :: r2 :: rest) frames
      = ⟨Outcome.startupFailure, 1, [], [], [(r1, 4), (r2, 4)]⟩ := by
  simp [driver, h1, h2]

/-- Witness for C6 with both scripted replies `[0,0,0,1]` (whose checksum is
wrong: the first two bytes sum to 0 but the trailing bytes read 1). -/
theorem mode_query_single_retry_witness :
    driver ByteOrder.little 0 0 [[0, 0, 0, 1], [0, 0, 0, 1]] []
      = ⟨Outcome.startupFailure, 1, [], [],
         [([0, 0, 0, 1], 4), ([0, 0, 0, 1], 4)]⟩ :=
  mode_query_single_retry ByteOrder.little 0 0 [0, 0, 0, 1] [0, 0, 0, 1] [] []
    (by decide) (by decide)

/-- Safety of one `validate_checksum` call `(buffer, length)`: the length is
one of the two lengths the program ever passes (4 for handshake replies, 79
for continuous frames), is at least 2, and equals the size of the supplied
buffer — so the accesses `data[length-2]`, `data[length-1]` and the summation
loop over `0..length-3` all stay inside the buffer. -/
def checksum_call_ok (c : Bytes × Nat) : Prop :=
  (c.2 = 4 ∨ c.2 = 79) ∧ 2 ≤ c.2 ∧ c.2 = c.1.length

/-- A logged handshake-reply call is safe when the read filled 4 bytes. -/
lemma checksum_call_ok_reply (r : Bytes) (h : r.length = 4) :
    checksum_call_ok (r, 4) :=
  ⟨Or.inl rfl, by norm_num, h.symm⟩

/-- A logged frame call is safe when the read filled 79 bytes. -/
lemma checksum_call_ok_frame (f : Bytes) (h : f.length = 79) :
    checksum_call_ok (f, 79) :=
  ⟨Or.inr rfl, by norm_num, h.symm⟩

/-- Call-safety propagates through the streaming stage. -/
lemma ck_ok_streaming (host : ByteOrder) (t0 delay : ℚ) (frames : List Bytes)
    (reinits : Nat) (calls : List (Bytes × Nat))
    (hc : ∀ c ∈ calls, checksum_call_ok c)
    (hf : ∀ f ∈ frames, f.length = 79) :
    ∀ c ∈ (driver_streaming host t0 delay frames reinits calls).ck_calls,
      checksum_call_ok c := by
  intro c hmem
  have : c ∈ calls ++ frames.map (fun f => (f, 79)) := hmem
  rcases List.mem_append.1 this with h | h
  · exact hc c h
  · obtain ⟨f, hfmem, rfl⟩ := List.mem_map.1 h
    exact checksum_call_ok_frame f (hf f hfmem)

/-- Call-safety propagates through the timer stage (whose reply is consumed
but not validated). -/
lemma ck_ok_timer (host : ByteOrder) (t0 delay : ℚ)
    (replies frames : List Bytes) (reinits : Nat)
    (calls : List (Bytes × Nat))
    (hc : ∀ c ∈ calls, checksum_call_ok c)
    (hf : ∀ f ∈ frames, f.length = 79) :
    ∀ c ∈ (driver_timer host t0 delay replies frames reinits calls).ck_calls,
      checksum_call_ok c := by
  cases replies with
  | nil => exact fun c hmem => hc c hmem
  | cons rt rest => exact ck_ok_streaming host t0 delay frames reinits calls hc hf

/-- Call-safety propagates through the set-continuous stage. -/
lemma ck_ok_continuous (host : ByteOrder) (t0 delay : ℚ)
    (replies frames : List Bytes) (reinits : Nat)
    (calls : List (Bytes × Nat))
    (hc : ∀ c ∈ calls, checksum_call_ok c)
    (hr : ∀ r ∈ replies, r.length = 4)
    (hf : ∀ f ∈ frames, f.length = 79) :
    ∀ c ∈ (driver_continuous host t0 delay replies frames reinits
        calls).ck_calls, checksum_call_ok c := by
  cases replies with
  | nil => exact fun c hmem => hc c hmem
  | cons r rest =>
    have hr4 : r.length = 4 := hr r (List.mem_cons_self r rest)
    have hc' : ∀ c ∈ calls ++ [(r, 4)], checksum_call_ok c := by
      intro c hmem
      rcases List.mem_append.1 hmem with h | h
      · exact hc c h
      · rw [List.mem_singleton.1 h]
        exact checksum_call_ok_reply r hr4
    show ∀ c ∈ (if validate_checksum r 4 = true then
        driver_timer host t0 delay rest frames reinits (calls ++ [(r, 4)])
      else ⟨.startupFailure, reinits, [], [],
        calls ++ [(r, 4)]⟩ : DriverResult).ck_calls, checksum_call_ok c
    by_cases hv : validate_checksum r 4 = true
    · rw [if_pos hv]
      exact ck_ok_timer host t0 delay rest frames reinits _ hc' hf
    · rw [if_neg hv]
      exact fun c hmem => hc' c hmem

/-- Call-safety propagates through the preset stage. -/
lemma ck_ok_preset (host : ByteOrder) (t0 delay : ℚ)
    (replies frames : List Bytes) (reinits : Nat)
    (calls : List (Bytes × Nat))
    (hc : ∀ c ∈ calls, checksum_call_ok c)
    (hr : ∀ r ∈ replies, r.length = 4)
    (hf : ∀ f ∈ frames, f.length = 79) :
    ∀ c ∈ (driver_preset host t0 delay replies frames reinits
        calls).ck_calls, checksum_call_ok c := by
  cases replies with
  | nil => exact fun c hmem => hc c hmem
  | cons r rest =>
    have hr4 : r.length = 4 := hr r (List.mem_cons_self r rest)
    have hc' : ∀ c ∈ calls ++ [(r, 4)], checksum_call_ok c := by
      intro c hmem
      rcases List.mem_append.1 hmem with h | h
      · exact hc c h
      · rw [List.mem_singleton.1 h]
        exact checksum_call_ok_reply r hr4
    have hr' : ∀ r' ∈ rest, r'.length = 4 :=
      fun r' hmem => hr r' (List.mem_cons_of_mem r hmem)
    show ∀ c ∈ (if validate_checksum r 4 = true then
        driver_continuous host t0 delay rest frames reinits (calls ++ [(r, 4)])
      else ⟨.startupFailure, reinits, [], [],
        calls ++ [(r, 4)]⟩ : DriverResult).ck_calls, checksum_call_ok c
    by_cases hv : validate_checksum r 4 = true
    · rw [if_pos hv]
      exact ck_ok_continuous host t0 delay rest frames reinits _ hc' hr' hf
    · rw [if_neg hv]
      exact fun c hmem => hc' c hmem

/-- Call-safety propagates through the ensure-active stage. -/
lemma ck_ok_active (host : ByteOrder) (t0 delay : ℚ) (modeReply : Bytes)
    (replies frames : List Bytes) (reinits : Nat)
    (calls : List (Bytes × Nat))
    (hc : ∀ c ∈ calls, checksum_call_ok c)
    (hr : ∀ r ∈ replies, r.length = 4)
    (hf : ∀ f ∈ frames, f.length = 79) :
    ∀ c ∈ (driver_active host t0 delay modeReply replies frames reinits
        calls).ck_calls, checksum_call_ok c := by
  unfold driver_active
  split
  · cases replies with
    | nil => exact fun c hmem => hc c hmem
    | cons r rest =>
      have hr4 : r.length = 4 := hr r (List.mem_cons_self r rest)
      have hc' : ∀ c ∈ calls ++ [(r, 4)], checksum_call_ok c := by
        intro c hmem
        rcases List.mem_append.1 hmem with h | h
        · exact hc c h
        · rw [List.mem_singleton.1 h]
          exact checksum_call_ok_reply r hr4
      have hr' : ∀ r' ∈ rest, r'.length = 4 :=
        fun r' hmem => hr r' (List.mem_cons_of_mem r hmem)
      show ∀ c ∈ (if validate_checksum r 4 = true then
          driver_preset host t0 delay rest frames reinits (calls ++ [(r, 4)])
        else ⟨.startupFailure, reinits, [], [],
          calls ++ [(r, 4)]⟩ : DriverResult).ck_calls, checksum_call_ok c
      by_cases hv : validate_checksum r 4 = true
      · rw [if_pos hv]
        exact ck_ok_preset host t0 delay rest frames reinits _ hc' hr' hf
      · rw [if_neg hv]
        exact fun c hmem => hc' c hmem
  · exact ck_ok_preset host t0 delay replies frames reinits calls hc hr hf

/-- **C10.**  When every scripted reply read fills 4 bytes and every frame
read fills 79 bytes (which is what the blocking reads guarantee), every
`validate_checksum` call the driver makes passes a length that is 4 or 79,
is at least 2, and equals the size of the supplied buffer — so the accesses
`data[length-2]`, `data[length-1]` and the summation loop over indices
`0..length-3` are always in bounds and the out-of-bounds case of a total
embedding of `validate_checksum` is unreachable at every call site. -/
theorem driver_checksum_calls_safe (host : ByteOrder) (t0 delay : ℚ)
    (replies frames : List Bytes) (c : Bytes × Nat)
    (hr : ∀ r ∈ replies, r.length = 4)
    (hf : ∀ f ∈ frames, f.length = 79)
    (hmem : c ∈ (driver host t0 delay replies frames).ck_calls) :
    (c.2 = 4 ∨ c.2 = 79) ∧ 2 ≤ c.2 ∧ c.2 = c.1.length := by
  revert hmem
  cases replies with
  | nil => intro hmem; exact absurd hmem (by simp [driver])
  | cons r1 rest1 =>
    have hr1 : r1.length = 4 := hr r1 (List.mem_cons_self r1 rest1)
    have hc1 : ∀ c ∈ [(r1, 4)], checksum_call_ok c := by
      intro c hmem
      rw [List.mem_singleton.1 hmem]
      exact checksum_call_ok_reply r1 hr1
    have hrest1 : ∀ r ∈ rest1, r.length = 4 :=
      fun r hmem => hr r (List.mem_cons_of_mem r1 hmem)
    cases rest1 with
    | nil =>
      show c ∈ (if validate_checksum r1 4 = true then
          driver_active host t0 delay r1 [] frames 0 [(r1, 4)]
        else ⟨Outcome.blocked, 1, [], [], [(r1, 4)]⟩ : DriverResult).ck_calls →
        (c.2 = 4 ∨ c.2 = 79) ∧ 2 ≤ c.2 ∧ c.2 = c.1.length
      by_cases hv1 : validate_checksum r1 4 = true
      · rw [if_pos hv1]
        exact fun hmem =>
          ck_ok_active host t0 delay r1 [] frames 0 [(r1, 4)] hc1
            (by intro r hmem; exact absurd hmem (by simp)) hf c hmem
      · rw [if_neg hv1]
        intro hmem; exact hc1 c hmem
    | cons r2 rest2 =>
      have hr2 : r2.length = 4 := hrest1 r2 (List.mem_cons_self r2 rest2)
      have hc2 : ∀ c ∈ [(r1, 4), (r2, 4)], checksum_call_ok c := by
        intro c hmem
        rcases List.mem_cons.1 hmem with h | h
        · rw [h]; exact checksum_call_ok_reply r1 hr1
        · rw [List.mem_singleton.1 h]
          exact checksum_call_ok_reply r2 hr2
      have hrest2 : ∀ r ∈ rest2, r.length = 4 :=
        fun r hmem => hrest1 r (List.mem_cons_of_mem r2 hmem)
      show c ∈ (if validate_checksum r1 4 = true then
          driver_active host t0 delay r1 (r2 :: rest2) frames 0 [(r1, 4)]
        else if validate_checksum r2 4 = true then
          driver_active host t0 delay r2 rest2 frames 1 [(r1, 4), (r2, 4)]
        else ⟨Outcome.startupFailure, 1, [], [],
          [(r1, 4), (r2, 4)]⟩ : DriverResult).ck_calls →
        (c.2 = 4 ∨ c.2 = 79) ∧ 2 ≤ c.2 ∧ c.2 = c.1.length
      by_cases hv1 : validate_checksum r1 4 = true
      · rw [if_pos hv1]
        exact fun hmem =>
          ck_ok_active host t0 delay r1 (r2 :: rest2) frames 0 [(r1, 4)] hc1
            hrest1 hf c hmem
      · rw [if_neg hv1]
        by_cases hv2 : validate_checksum r2 4 = true
        · rw [if_pos hv2]
          exact fun hmem =>
            ck_ok_active host t0 delay r2 rest2 frames 1 [(r1, 4), (r2, 4)]
              hc2 hrest2 hf c hmem
        · rw [if_neg hv2]
          intro hmem; exact hc2 c hmem

/-- Witness for C10: with the single scripted (and invalid) reply
`[0, 0, 0, 1]`, the run makes exactly one `validate_checksum` call, on that
4-byte buffer with length 4. -/
theorem driver_checksum_calls_safe_witness :
    ((([0, 0, 0, 1] : Bytes), 4).2 = 4 ∨ ((([0, 0, 0, 1] : Bytes), 4)).2 = 79)
      ∧ 2 ≤ ((([0, 0, 0, 1] : Bytes), 4)).2
      ∧ ((([0, 0, 0, 1] : Bytes), 4)).2 = ((([0, 0, 0, 1] : Bytes), 4)).1.length :=
  driver_checksum_calls_safe ByteOrder.little 0 0 [[0, 0, 0, 1]] []
    (([0, 0, 0, 1] : Bytes), 4) (by decide) (by decide) (by decide)

/-! ## Rotation-matrix → quaternion conversion (source line 291)

The source converts with `Eigen::Quaternion<double> q(R)`, delegating to the
external Eigen library; the conversion itself is not part of this
repository's sources, so it is modelled from the spec (§4.1): the standard
numerically-stable conversion that branches on the largest of the trace and
the three diagonal entries.  Real (exact) arithmetic stands in for `double`
arithmetic. -/

/-- A 3×3 real matrix, indexed (row, column). -/
abbrev Mat3 := Fin 3 → Fin 3 → ℝ

/-- A quaternion (w, x, y, z) with real components. -/
structure Quat where
  w : ℝ
  x : ℝ
  y : ℝ
  z : ℝ

/-- Squared norm of a quaternion. -/
def quatNormSq (q : Quat) : ℝ := q.w ^ 2 + q.x ^ 2 + q.y ^ 2 + q.z ^ 2

/-- Dot product of rows `i` and `j` of a 3×3 matrix. -/
def rowdot (R : Mat3) (i j : Fin 3) : ℝ :=
  R i 0 * R j 0 + R i 1 * R j 1 + R i 2 * R j 2

/-- Determinant of a 3×3 matrix (expansion along the first row). -/
def det3 (R : Mat3) : ℝ :=
  R 0 0 * (R 1 1 * R 2 2 - R 1 2 * R 2 1)
    - R 0 1 * (R 1 0 * R 2 2 - R 1 2 * R 2 0)
    + R 0 2 * (R 1 0 * R 2 1 - R 1 1 * R 2 0)

/-- A valid rotation matrix: orthonormal rows and determinant 1. -/
def IsRotation (R : Mat3) : Prop :=
  rowdot R 0 0 = 1 ∧ rowdot R 1 1 = 1 ∧ rowdot R 2 2 = 1 ∧
    rowdot R 0 1 = 0 ∧ rowdot R 0 2 = 0 ∧ rowdot R 1 2 = 0 ∧ det3 R = 1

/-- The 3×3 identity matrix. -/
def idMat3 : Mat3 := fun i j => if i = j then 1 else 0

/-- Modelled from the spec: `rotation_to_quaternion` — the conversion the
driver performs through the external Eigen library (line 291), which is not
part of this repository's sources.  Per §4.1 it is the standard
numerically-stable conversion: branch on the largest of the trace and the
three diagonal entries to avoid dividing by a near-zero term. -/
noncomputable def rotation_to_quaternion (R : Mat3) : Quat :=
  if 0 < R 0 0 + R 1 1 + R 2 2 then
    ⟨Real.sqrt (R 0 0 + R 1 1 + R 2 2 + 1) / 2,
     (R 2 1 - R 1 2) / (2 * Real.sqrt (R 0 0 + R 1 1 + R 2 2 + 1)),
     (R 0 2 - R 2 0) / (2 * Real.sqrt (R 0 0 + R 1 1 + R 2 2 + 1)),
     (R 1 0 - R 0 1) / (2 * Real.sqrt (R 0 0 + R 1 1 + R 2 2 + 1))⟩
  else if R 1 1 ≤ R 0 0 ∧ R 2 2 ≤ R 0 0 then
    ⟨(R 2 1 - R 1 2) / (2 * Real.sqrt (1 + R 0 0 - R 1 1 - R 2 2)),
     Real.sqrt (1 + R 0 0 - R 1 1 - R 2 2) / 2,
     (R 0 1 + R 1 0) / (2 * Real.sqrt (1 + R 0 0 - R 1 1 - R 2 2)),
     (R 0 2 + R 2 0) / (2 * Real.sqrt (1 + R 0 0 - R 1 1 - R 2 2))⟩
  else if R 2 2 ≤ R 1 1 then
    ⟨(R 0 2 - R 2 0) / (2 * Real.sqrt (1 + R 1 1 - R 0 0 - R 2 2)),
     (R 0 1 + R 1 0) / (2 * Real.sqrt (1 + R 1 1 - R 0 0 - R 2 2)),
     Real.sqrt (1 + R 1 1 - R 0 0 - R 2 2) / 2,
     (R 1 2 + R 2 1) / (2 * Real.sqrt (1 + R 1 1 - R 0 0 - R 2 2))⟩
  else
    ⟨(R 1 0 - R 0 1) / (2 * Real.sqrt (1 + R 2 2 - R 0 0 - R 1 1)),
     (R 0 2 + R 2 0) / (2 * Real.sqrt (1 + R 2 2 - R 0 0 - R 1 1)),
     (R 1 2 + R 2 1) / (2 * Real.sqrt (1 + R 2 2 - R 0 0 - R 1 1)),
     Real.sqrt (1 + R 2 2 - R 0 0 - R 1 1) / 2⟩

set_option maxHeartbeats 1000000 in
/-- For a rotation matrix the third row is the cross product of the first
two: it is a unit vector (Lagrange's identity), its dot product with the
cross product equals the determinant, and a unit vector whose dot product
with another unit vector is 1 equals that vector. -/
lemma third_row_eq_cross (R : Mat3) (h : IsRotation R) :
    R 2 0 = R 0 1 * R 1 2 - R 0 2 * R 1 1 ∧
      R 2 1 = R 0 2 * R 1 0 - R 0 0 * R 1 2 ∧
      R 2 2 = R 0 0 * R 1 1 - R 0 1 * R 1 0 := by
  obtain ⟨h00, h11, h22, h01, h02, h12, hdet⟩ := h
  simp only [rowdot] at h00 h11 h22 h01
  simp only [det3] at hdet
  have hcnorm : (R 0 1 * R 1 2 - R 0 2 * R 1 1) ^ 2
      + (R 0 2 * R 1 0 - R 0 0 * R 1 2) ^ 2
      + (R 0 0 * R 1 1 - R 0 1 * R 1 0) ^ 2 = 1 := by
    linear_combination (R 1 0 * R 1 0 + R 1 1 * R 1 1 + R 1 2 * R 1 2) * h00
      + h11 - (R 0 0 * R 1 0 + R 0 1 * R 1 1 + R 0 2 * R 1 2 : ℝ) * h01
  have hdot : R 2 0 * (R 0 1 * R 1 2 - R 0 2 * R 1 1)
      + R 2 1 * (R 0 2 * R 1 0 - R 0 0 * R 1 2)
      + R 2 2 * (R 0 0 * R 1 1 - R 0 1 * R 1 0) = 1 := by
    linear_combination hdet
  have hzero : (R 2 0 - (R 0 1 * R 1 2 - R 0 2 * R 1 1)) ^ 2
      + (R 2 1 - (R 0 2 * R 1 0 - R 0 0 * R 1 2)) ^ 2
      + (R 2 2 - (R 0 0 * R 1 1 - R 0 1 * R 1 0)) ^ 2 = 0 := by
    linear_combination h22 - 2 * hdot + hcnorm
  have hA := sq_nonneg (R 2 0 - (R 0 1 * R 1 2 - R 0 2 * R 1 1))
  have hB := sq_nonneg (R 2 1 - (R 0 2 * R 1 0 - R 0 0 * R 1 2))
  have hC := sq_nonneg (R 2 2 - (R 0 0 * R 1 1 - R 0 1 * R 1 0))
  have e0 : R 2 0 - (R 0 1 * R 1 2 - R 0 2 * R 1 1) = 0 :=
    pow_eq_zero_iff (by norm_num : (2:ℕ) ≠ 0) |>.1 (le_antisymm (by linarith) hA)
  have e1 : R 2 1 - (R 0 2 * R 1 0 - R 0 0 * R 1 2) = 0 :=
    pow_eq_zero_iff (by norm_num : (2:ℕ) ≠ 0) |>.1 (le_antisymm (by linarith) hB)
  have e2 : R 2 2 - (R 0 0 * R 1 1 - R 0 1 * R 1 0) = 0 :=
    pow_eq_zero_iff (by norm_num : (2:ℕ) ≠ 0) |>.1 (le_antisymm (by linarith) hC)
  exact ⟨by linarith, by linarith, by linarith⟩

/-- Trace-branch numerator identity: the sum of squares of the antisymmetric
differences equals `d * (4 - d)` with `d = trace + 1`. -/
lemma key_trace (R : Mat3) (h : IsRotation R) :
    (R 2 1 - R 1 2) ^ 2 + (R 0 2 - R 2 0) ^ 2 + (R 1 0 - R 0 1) ^ 2
      = (R 0 0 + R 1 1 + R 2 2 + 1)
        * (4 - (R 0 0 + R 1 1 + R 2 2 + 1)) := by
  obtain ⟨hc0, hc1, hc2⟩ := third_row_eq_cross R h
  obtain ⟨h00, h11, h22, h01, h02, h12, hdet⟩ := h
  simp only [rowdot] at h00 h11 h01
  rw [hc0, hc1, hc2]
  linear_combination (R 1 0 * R 1 0 + R 1 1 * R 1 1 + R 1 2 * R 1 2
      + 1 + 2 * R 1 1) * h00
    + (2 + 2 * R 0 0) * h11
    - (R 0 0 * R 1 0 + R 0 1 * R 1 1 + R 0 2 * R 1 2
      + 2 * R 0 1 + 2 * R 1 0 : ℝ) * h01

/-- First-diagonal-branch numerator identity, `d = 1 + R00 - R11 - R22`. -/
lemma key_diag0 (R : Mat3) (h : IsRotation R) :
    (R 2 1 - R 1 2) ^ 2 + (R 0 1 + R 1 0) ^ 2 + (R 0 2 + R 2 0) ^ 2
      = (1 + R 0 0 - R 1 1 - R 2 2)
        * (4 - (1 + R 0 0 - R 1 1 - R 2 2)) := by
  obtain ⟨hc0, hc1, hc2⟩ := third_row_eq_cross R h
  obtain ⟨h00, h11, h22, h01, h02, h12, hdet⟩ := h
  simp only [rowdot] at h00 h11 h01
  rw [hc0, hc1, hc2]
  linear_combination (R 1 0 * R 1 0 + R 1 1 * R 1 1 + R 1 2 * R 1 2
      + 1 - 2 * R 1 1) * h00
    + (2 + 2 * R 0 0) * h11
    - (R 0 0 * R 1 0 + R 0 1 * R 1 1 + R 0 2 * R 1 2
      + 2 * R 1 0 - 2 * R 0 1 : ℝ) * h01

/-- Second-diagonal-branch numerator identity, `d = 1 + R11 - R00 - R22`. -/
lemma key_diag1 (R : Mat3) (h : IsRotation R) :
    (R 0 2 - R 2 0) ^ 2 + (R 0 1 + R 1 0) ^ 2 + (R 1 2 + R 2 1) ^ 2
      = (1 + R 1 1 - R 0 0 - R 2 2)
        * (4 - (1 + R 1 1 - R 0 0 - R 2 2)) := by
  obtain ⟨hc0, hc1, hc2⟩ := third_row_eq_cross R h
  obtain ⟨h00, h11, h22, h01, h02, h12, hdet⟩ := h
  simp only [rowdot] at h00 h11 h01
  rw [hc0, hc1, hc2]
  linear_combination (1 + R 1 0 * R 1 0 + R 1 1 * R 1 1 + R 1 2 * R 1 2
      + 2 * R 1 1) * h00
    + (2 - 2 * R 0 0) * h11
    - (R 0 0 * R 1 0 + R 0 1 * R 1 1 + R 0 2 * R 1 2
      + 2 * R 0 1 - 2 * R 1 0 : ℝ) * h01

/-- Third-diagonal-branch numerator identity, `d = 1 + R22 - R00 - R11`. -/
lemma key_diag2 (R : Mat3) (h : IsRotation R) :
    (R 1 0 - R 0 1) ^ 2 + (R 0 2 + R 2 0) ^ 2 + (R 1 2 + R 2 1) ^ 2
      = (1 + R 2 2 - R 0 0 - R 1 1)
        * (4 - (1 + R 2 2 - R 0 0 - R 1 1)) := by
  obtain ⟨hc0, hc1, hc2⟩ := third_row_eq_cross R h
  obtain ⟨h00, h11, h22, h01, h02, h12, hdet⟩ := h
  simp only [rowdot] at h00 h11 h01
  rw [hc0, hc1, hc2]
  linear_combination (1 + R 1 0 * R 1 0 + R 1 1 * R 1 1 + R 1 2 * R 1 2
      - 2 * R 1 1) * h00
    + (2 - 2 * R 0 0) * h11
    - (R 0 0 * R 1 0 + R 0 1 * R 1 1 + R 0 2 * R 1 2
      - 2 * R 0 1 - 2 * R 1 0 : ℝ) * h01

/-- Shape of every branch of the conversion: if the three remaining
numerators satisfy the branch identity, the four components sum (in squares)
to 1. -/
lemma branch_norm (d p q r : ℝ) (hd : 0 < d)
    (hkey : p ^ 2 + q ^ 2 + r ^ 2 = d * (4 - d)) :
    (Real.sqrt d / 2) ^ 2 + (p / (2 * Real.sqrt d)) ^ 2
      + (q / (2 * Real.sqrt d)) ^ 2 + (r / (2 * Real.sqrt d)) ^ 2 = 1 := by
  have hsq : Real.sqrt d ^ 2 = d := Real.sq_sqrt hd.le
  have hdne : d ≠ 0 := ne_of_gt hd
  calc (Real.sqrt d / 2) ^ 2 + (p / (2 * Real.sqrt d)) ^ 2
        + (q / (2 * Real.sqrt d)) ^ 2 + (r / (2 * Real.sqrt d)) ^ 2
      = d / 4 + (p ^ 2 + q ^ 2 + r ^ 2) / (4 * d) := by
        rw [div_pow, div_pow, div_pow, div_pow, mul_pow, hsq]
        ring
    _ = d / 4 + d * (4 - d) / (4 * d) := by rw [hkey]
    _ = 1 := by
        field_simp
        ring

/-- **C7.**  The (spec-modelled) rotation-to-quaternion conversion produces a
unit quaternion for every valid rotation matrix, and on the 3×3 identity
matrix it yields exactly the identity quaternion (1, 0, 0, 0). -/
theorem rotation_to_quaternion_unit (R : Mat3) (hR : IsRotation R) :
    quatNormSq (rotation_to_quaternion R) = 1 ∧
      rotation_to_quaternion idMat3 = ⟨1, 0, 0, 0⟩ := by
  constructor
  · obtain ⟨h00, h11, h22, h01, h02, h12, hdet⟩ := hR
    have h00' := h00
    have h11' := h11
    have h22' := h22
    simp only [rowdot] at h11' h22'
    have hR' : IsRotation R := ⟨h00, h11, h22, h01, h02, h12, hdet⟩
    have hb1 : R 1 1 ≤ 1 := by
      nlinarith [h11', sq_nonneg (R 1 0), sq_nonneg (R 1 2),
        sq_nonneg (R 1 1 - 1)]
    have hb2 : R 2 2 ≤ 1 := by
      nlinarith [h22', sq_nonneg (R 2 0), sq_nonneg (R 2 1),
        sq_nonneg (R 2 2 - 1)]
    unfold rotation_to_quaternion
    by_cases htr : 0 < R 0 0 + R 1 1 + R 2 2
    · rw [if_pos htr]
      have hd : (0 : ℝ) < R 0 0 + R 1 1 + R 2 2 + 1 := by linarith
      have hb := branch_norm (R 0 0 + R 1 1 + R 2 2 + 1) (R 2 1 - R 1 2)
        (R 0 2 - R 2 0) (R 1 0 - R 0 1) hd (key_trace R hR')
      simp only [quatNormSq]
      linarith [hb]
    · rw [if_neg htr]
      push_neg at htr
      by_cases hd0 : R 1 1 ≤ R 0 0 ∧ R 2 2 ≤ R 0 0
      · rw [if_pos hd0]
        have hd : (0 : ℝ) < 1 + R 0 0 - R 1 1 - R 2 2 := by
          rcases hd0 with ⟨ha, hb'⟩
          linarith
        have hb := branch_norm (1 + R 0 0 - R 1 1 - R 2 2) (R 2 1 - R 1 2)
          (R 0 1 + R 1 0) (R 0 2 + R 2 0) hd (key_diag0 R hR')
        simp only [quatNormSq]
        linarith [hb]
      · rw [if_neg hd0]
        push_neg at hd0
        by_cases hd1 : R 2 2 ≤ R 1 1
        · rw [if_pos hd1]
          have hd : (0 : ℝ) < 1 + R 1 1 - R 0 0 - R 2 2 := by
            rcases le_or_lt (R 1 1) (R 0 0) with hca | hca
            · have := hd0 hca
              linarith
            · linarith
          have hb := branch_norm (1 + R 1 1 - R 0 0 - R 2 2) (R 0 2 - R 2 0)
            (R 0 1 + R 1 0) (R 1 2 + R 2 1) hd (key_diag1 R hR')
          simp only [quatNormSq]
          linarith [hb]
        · rw [if_neg hd1]
          push_neg at hd1
          have hd : (0 : ℝ) < 1 + R 2 2 - R 0 0 - R 1 1 := by
            rcases le_or_lt (R 1 1) (R 0 0) with hca | hca
            · have := hd0 hca
              linarith
            · linarith
          have hb := branch_norm (1 + R 2 2 - R 0 0 - R 1 1) (R 1 0 - R 0 1)
            (R 0 2 + R 2 0) (R 1 2 + R 2 1) hd (key_diag2 R hR')
          simp only [quatNormSq]
          linarith [hb]
  · have h4 : Real.sqrt 4 = 2 := by
      rw [show (4 : ℝ) = 2 ^ 2 by norm_num]
      exact Real.sqrt_sq (by norm_num)
    have hd0 : idMat3 0 0 = 1 := if_pos rfl
    have hd1 : idMat3 1 1 = 1 := if_pos rfl
    have hd2 : idMat3 2 2 = 1 := if_pos rfl
    have ho21 : idMat3 2 1 = 0 := if_neg (by decide)
    have ho12 : idMat3 1 2 = 0 := if_neg (by decide)
    have ho02 : idMat3 0 2 = 0 := if_neg (by decide)
    have ho20 : idMat3 2 0 = 0 := if_neg (by decide)
    have ho10 : idMat3 1 0 = 0 := if_neg (by decide)
    have ho01 : idMat3 0 1 = 0 := if_neg (by decide)
    unfold rotation_to_quaternion
    rw [if_pos (show (0 : ℝ) < idMat3 0 0 + idMat3 1 1 + idMat3 2 2 by
      rw [hd0, hd1, hd2]; norm_num)]
    rw [hd0, hd1, hd2, ho21, ho12, ho02, ho20, ho10, ho01]
    norm_num [h4]

/-- Witness for C7: the identity matrix is a valid rotation matrix, and the
conversion there is the unit quaternion (1, 0, 0, 0). -/
theorem rotation_to_quaternion_unit_witness :
    quatNormSq (rotation_to_quaternion idMat3) = 1 ∧
      rotation_to_quaternion idMat3 = ⟨1, 0, 0, 0⟩ := by
  apply rotation_to_quaternion_unit idMat3
  have hd0 : idMat3 0 0 = 1 := if_pos rfl
  have hd1 : idMat3 1 1 = 1 := if_pos rfl
  have hd2 : idMat3 2 2 = 1 := if_pos rfl
  have ho21 : idMat3 2 1 = 0 := if_neg (by decide)
  have ho12 : idMat3 1 2 = 0 := if_neg (by decide)
  have ho02 : idMat3 0 2 = 0 := if_neg (by decide)
  have ho20 : idMat3 2 0 = 0 := if_neg (by decide)
  have ho10 : idMat3 1 0 = 0 := if_neg (by decide)
  have ho01 : idMat3 0 1 = 0 := if_neg (by decide)
  refine ⟨?_, ?_, ?_, ?_, ?_, ?_, ?_⟩ <;>
    simp only [rowdot, det3, hd0, hd1, hd2, ho21, ho12, ho02, ho20, ho10,
      ho01] <;>
    norm_num

end Imu3dmGx3
